import Mathlib

/-
A verification development for the streaming extractor in
chat_export_to_json.py: the byte-level state machine that pulls the
values of the jsonData and assetsJson assignments out of a ChatGPT
chat.html export and writes them to output files.

Bytes are modelled as natural numbers (0..255), byte strings as
List Nat, file contents as Option (List Nat) (none = the file does not
exist).  The Python per-byte loop becomes an explicit step function on a
state record; exceptions become an Except carrying the filesystem state
at the point of failure.
-/

namespace ChatExport

/-- Byte constant: space. -/
def SPACE : Nat := 32

/-- Byte constant: horizontal tab. -/
def TAB : Nat := 9

/-- Byte constant: line feed. -/
def NEWLINE : Nat := 10

/-- Byte constant: carriage return. -/
def CR : Nat := 13

/-- Byte constant: semicolon. -/
def SEMI : Nat := 59

/-- Byte constant: equals sign. -/
def EQUALS : Nat := 61

/-- Is the byte a space or tab (the set SPACE_TABS in the source)? -/
def isST (c : Nat) : Bool := c == SPACE || c == TAB

/-- Is the byte a space, tab or carriage return (the trailing-trim set)? -/
def isSTC (c : Nat) : Bool := c == SPACE || c == TAB || c == CR

/-- Strip the leading run of spaces/tabs, as bytes.lstrip(SPACE_TABS). -/
def lstripST (l : List Nat) : List Nat := l.dropWhile isST

/-- startsB p l: does the byte list l start with the byte list p
(bytes.startswith in the source)? -/
def startsB : List Nat → List Nat → Bool
  | [], _ => true
  | _ :: _, [] => false
  | p :: ps, x :: xs => p == x && startsB ps xs

/-- The keyword bytes of the literal b"var". -/
def kwVar : List Nat := [118, 97, 114]

/-- The keyword bytes of the literal b"let". -/
def kwLet : List Nat := [108, 101, 116]

/-- The keyword bytes of the literal b"const". -/
def kwConst : List Nat := [99, 111, 110, 115, 116]

/-- The bytes of the literal b"window.". -/
def kwWindow : List Nat := [119, 105, 110, 100, 111, 119, 46]

/-- The bytes of the literal b"jsonData". -/
def kwJsonData : List Nat := [106, 115, 111, 110, 68, 97, 116, 97]

/-- The bytes of the literal b"assetsJson". -/
def kwAssetsJson : List Nat := [97, 115, 115, 101, 116, 115, 74, 115, 111, 110]

/-- The two recognized target variables. -/
inductive Target where
  | json
  | assets
deriving DecidableEq

/-- Translation of _which_assignment: classify the bytes before an
equals sign, allowing an optional var/let/const keyword and an optional
window. prefix, by prefix tests only. -/
def whichAssignment (head : List Nat) : Option Target :=
  let b1 := lstripST head
  let b2 :=
    if startsB kwVar b1 then lstripST (b1.drop 3)
    else if startsB kwLet b1 then lstripST (b1.drop 3)
    else if startsB kwConst b1 then lstripST (b1.drop 5)
    else b1
  let b3 := if startsB kwWindow b2 then lstripST (b2.drop 7) else b2
  if startsB kwJsonData b3 then some Target.json
  else if startsB kwAssetsJson b3 then some Target.assets
  else none

/-- Trim a reversed byte list from the front: drop the leading run of
space/tab/CR, then drop at most one semicolon.  This is the reversed
view of the finalize loop (pop while tail in SPACE TAB CR, then pop one
tail semicolon). -/
def trimRev (l : List Nat) : List Nat :=
  match l.dropWhile isSTC with
  | [] => []
  | c :: r => if c = SEMI then r else c :: r

/-- The finalize trim of the source: pop from the tail of the held bytes
while the tail byte is space/tab/CR, then pop at most one trailing
semicolon. -/
def trimTail (l : List Nat) : List Nat := (trimRev l.reverse).reverse

/-- The scanner mode: the value of the Python variable capturing
(None, "skipline", "json" or "assets"). -/
inductive Mode where
  | scanning
  | skipline
  | cap (t : Target)
deriving DecidableEq

/-- Error kinds the extractor can raise. -/
inductive Err where
  | inputNotFound
  | alreadyExists
deriving DecidableEq

/-- The full mutable state of one extraction run: the found flags, the
scanner mode, the started_content flag, the trailing window (hold, front
= oldest byte), the head buffer, the bytes already written to the
currently open sink (curOut), and the contents of the two destination
files (none = absent). -/
structure St where
  foundJson : Bool
  foundAssets : Bool
  mode : Mode
  startedContent : Bool
  hold : List Nat
  headbuf : List Nat
  curOut : List Nat
  dataFile : Option (List Nat)
  assetsFile : Option (List Nat)
deriving DecidableEq

/-- The initial run state over given pre-existing destination files. -/
def initSt (data0 assets0 : Option (List Nat)) : St :=
  ⟨false, false, Mode.scanning, false, [], [], [], data0, assets0⟩

/-- The found flag for a target. -/
def foundOf (st : St) : Target → Bool
  | Target.json => st.foundJson
  | Target.assets => st.foundAssets

/-- The destination file contents for a target. -/
def fileOf (st : St) : Target → Option (List Nat)
  | Target.json => st.dataFile
  | Target.assets => st.assetsFile

/-- Set the destination file contents for a target. -/
def setFile (st : St) (t : Target) (c : List Nat) : St :=
  match t with
  | Target.json => { st with dataFile := some c }
  | Target.assets => { st with assetsFile := some c }

/-- Mark a target found. -/
def setFound (st : St) (t : Target) : St :=
  match t with
  | Target.json => { st with foundJson := true }
  | Target.assets => { st with foundAssets := true }

/-- Does _open_out fail?  It raises FileExistsError exactly when the
destination exists and overwrite is false. -/
def openFails (file : Option (List Nat)) (ow : Bool) : Bool :=
  file.isSome && !ow

/-- The state after a capture completes on a newline: the trimmed
remainder of the window is flushed after the already-written bytes, the
sink is closed (content committed to the target's file), the target is
marked found, and mode, buffers and the started flag are reset. -/
def capDone (st : St) (t : Target) (c : List Nat) : St :=
  setFound
    (setFile
      { st with mode := Mode.scanning, startedContent := false,
                hold := [], headbuf := [], curOut := [] }
      t c)
    t

/-- One byte of the scanning loop, translated branch for branch from the
body of the for loop in extract_chat_html.  holdMax is the deque maxlen
(max 1024 trailing_buffer); an error carries the filesystem state at the
moment the exception is raised. -/
def step (holdMax : Nat) (ow : Bool) (st : St) (b : Nat) : Except (Err × St) St :=
  match st.mode with
  | Mode.scanning =>
    if b = NEWLINE then
      Except.ok { st with headbuf := [] }
    else if b = EQUALS then
      match whichAssignment st.headbuf with
      | none => Except.ok { st with headbuf := [], mode := Mode.skipline }
      | some t =>
        if foundOf st t then
          Except.ok { st with headbuf := [], mode := Mode.skipline }
        else if openFails (fileOf st t) ow then
          Except.error (Err.alreadyExists, st)
        else
          Except.ok { st with mode := Mode.cap t, startedContent := false,
                              hold := [], headbuf := [], curOut := [] }
    else
      Except.ok { st with headbuf := st.headbuf ++ [b] }
  | Mode.skipline =>
    if b = NEWLINE then
      Except.ok { st with mode := Mode.scanning, headbuf := [] }
    else
      Except.ok st
  | Mode.cap t =>
    if !st.startedContent && isST b then
      Except.ok st
    else if b = NEWLINE then
      Except.ok (capDone st t (st.curOut ++ trimTail st.hold))
    else
      let h := st.hold ++ [b]
      if h.length = holdMax then
        Except.ok { st with startedContent := true, hold := h.tail,
                            curOut := st.curOut ++ h.take 1 }
      else
        Except.ok { st with startedContent := true, hold := h }

/-- Run the step function over a byte list, stopping at the first
error. -/
def procBytes (holdMax : Nat) (ow : Bool) : St → List Nat → Except (Err × St) St
  | st, [] => Except.ok st
  | st, b :: bs =>
    match step holdMax ow st b with
    | Except.ok st2 => procBytes holdMax ow st2 bs
    | Except.error e => Except.error e

/-- Run the scanner over a list of read chunks, stopping at the first
error (the chunked read loop of the source). -/
def procChunks (holdMax : Nat) (ow : Bool) : St → List (List Nat) → Except (Err × St) St
  | st, [] => Except.ok st
  | st, c :: cs =>
    match procBytes holdMax ow st c with
    | Except.ok st2 => procChunks holdMax ow st2 cs
    | Except.error e => Except.error e

/-- The EOF finalization: if the file ends while capturing, trim and
flush the window, close the sink and mark the target found (the block
after the read loop in extract_chat_html). -/
def finishEOF (st : St) : St :=
  match st.mode with
  | Mode.cap t => setFound (setFile st t (st.curOut ++ trimTail st.hold)) t
  | _ => st

/-- Split a byte list into chunks of n bytes (fuel-driven; fuel at least
the list length and n at least 1 make it total). -/
def chunksOfAux (n : Nat) : Nat → List Nat → List (List Nat)
  | 0, _ => []
  | _, [] => []
  | fuel + 1, b :: bs => ((b :: bs).take n) :: chunksOfAux n fuel ((b :: bs).drop n)

/-- Split a byte list into chunks of n bytes, modelling the successive
returns of f.read(n) on the input file. -/
def chunksOf (n : Nat) (l : List Nat) : List (List Nat) :=
  chunksOfAux n l.length l

/-- The observable outcome of one extraction run: either the returned
pair of found flags plus the final destination file contents, or the
raised error plus the destination file contents at the time it was
raised. -/
inductive Outcome where
  | ok (dataRes assetsRes : Bool) (dataFile assetsFile : Option (List Nat))
  | fail (e : Err) (dataFile assetsFile : Option (List Nat))
deriving DecidableEq, BEq

/-- Is the outcome an error? -/
def Outcome.isFail : Outcome → Bool
  | Outcome.fail _ _ _ => true
  | Outcome.ok _ _ _ _ => false

/-- Strip the first matching keyword of a fixed keyword list (checked as
literal byte prefixes, in order, first match wins), then strip leading
spaces/tabs; if none matches, leave the bytes unchanged.  Written from
the specification text of the Head Matcher. -/
def stripKw : List (List Nat) → List Nat → List Nat
  | [], b => b
  | kw :: rest, b =>
    if startsB kw b then lstripST (b.drop kw.length) else stripKw rest b

/-- The Head Matcher as the specification describes it, step by step:
strip spaces/tabs; strip at most one of the keywords var, let, const in
that fixed order; strip an optional window. prefix; then classify by a
prefix test on jsonData, then assetsJson. -/
def headMatcherSpec (head : List Nat) : Option Target :=
  let s1 := lstripST head
  let s2 := stripKw [kwVar, kwLet, kwConst] s1
  let s3 := if startsB kwWindow s2 then lstripST (s2.drop kwWindow.length) else s2
  if startsB kwJsonData s3 then some Target.json
  else if startsB kwAssetsJson s3 then some Target.assets
  else none

/-- The head bytes of a line reading var jsonData followed by a space
(everything before the equals sign). -/
def headVarJson : List Nat := [118, 97, 114, 32, 106, 115, 111, 110, 68, 97, 116, 97, 32]

/-- The head bytes jsonDataExtra: the recognized name with extra
identifier characters appended. -/
def headJsonDataExtra : List Nat :=
  [106, 115, 111, 110, 68, 97, 116, 97, 69, 120, 116, 114, 97]

/-- The bytes of the input line var jsonData followed by equals, three
spaces, the value bracket 1 comma 2 comma 3 bracket, two spaces, a
semicolon, two spaces and a newline. -/
def c2Input : List Nat :=
  [118, 97, 114, 32, 106, 115, 111, 110, 68, 97, 116, 97, 32, 61,
   32, 32, 32, 91, 49, 44, 50, 44, 51, 93, 32, 32, 59, 32, 32, 10]

/-- The bytes the extractor actually emits for c2Input: the value
bracket 1 comma 2 comma 3 bracket followed by the two spaces that stood
before the semicolon. -/
def c2OutBytes : List Nat := [91, 49, 44, 50, 44, 51, 93, 32, 32]

/-- The head bytes jsonData alone. -/
def c1Head : List Nat := [106, 115, 111, 110, 68, 97, 116, 97]

/-- A small value: space, bracket 1 bracket, space, semicolon. -/
def c1Val : List Nat := [32, 91, 49, 93, 32, 59]

/-- The bytes of jsonData equals bracket 1 bracket with no final
newline. -/
def c5Input : List Nat := [106, 115, 111, 110, 68, 97, 116, 97, 61, 91, 49, 93]

/-- Translation of extract_chat_html.  isFile models html_path.is_file();
input is the input file's bytes; data0/assets0 the pre-existing contents
of the two destination paths; ow the overwrite flag.  The read size and
the window size are clamped below exactly as in the source
(max 64*1024 chunk_size at f.read, max 1024 trailing_buffer at the deque). -/
def extract_chat_html (isFile : Bool) (input : List Nat)
    (data0 assets0 : Option (List Nat)) (ow : Bool)
    (chunk_size trailing_buffer : Nat) : Outcome :=
  if isFile = false then
    Outcome.fail Err.inputNotFound data0 assets0
  else
    let hm := max 1024 trailing_buffer
    match procChunks hm ow (initSt data0 assets0) (chunksOf (max 65536 chunk_size) input) with
    | Except.ok st =>
      let stf := finishEOF st
      Outcome.ok stf.foundJson stf.foundAssets stf.dataFile stf.assetsFile
    | Except.error (e, st) => Outcome.fail e st.dataFile st.assetsFile

/-- The observable outcome of a finished or failed flat run. -/
def outcomeOfRun (r : Except (Err × St) St) : Outcome :=
  match r with
  | Except.ok st =>
    Outcome.ok (finishEOF st).foundJson (finishEOF st).foundAssets
      (finishEOF st).dataFile (finishEOF st).assetsFile
  | Except.error (e, st) => Outcome.fail e st.dataFile st.assetsFile

/-- One push of a captured byte into the (curOut, hold) pair: append to
the window; if that fills it to maxlen, evict the oldest byte onto the
output. -/
def capPush (hm : Nat) (a : List Nat × List Nat) (b : Nat) : List Nat × List Nat :=
  let h := a.2 ++ [b]
  if h.length = hm then (a.1 ++ h.take 1, h.tail) else (a.1, h)

/-- The part of the state that control flow and error behaviour can
depend on: everything except the window, the pending output bytes and
the file contents (of which only existence matters). -/
structure Sk where
  foundJson : Bool
  foundAssets : Bool
  mode : Mode
  startedContent : Bool
  headbuf : List Nat
  dataSome : Bool
  assetsSome : Bool
deriving DecidableEq

/-- Project a run state onto its control skeleton. -/
def sk (st : St) : Sk :=
  ⟨st.foundJson, st.foundAssets, st.mode, st.startedContent, st.headbuf,
    st.dataFile.isSome, st.assetsFile.isSome⟩

/-- The found flag of a skeleton for a target. -/
def skFoundOf (k : Sk) : Target → Bool
  | Target.json => k.foundJson
  | Target.assets => k.foundAssets

/-- The file-existence flag of a skeleton for a target. -/
def skSomeOf (k : Sk) : Target → Bool
  | Target.json => k.dataSome
  | Target.assets => k.assetsSome

/-- The skeleton of a closed capture. -/
def skClose (k : Sk) (t : Target) : Sk :=
  match t with
  | Target.json =>
    { k with foundJson := true, dataSome := true, mode := Mode.scanning,
             startedContent := false, headbuf := [] }
  | Target.assets =>
    { k with foundAssets := true, assetsSome := true, mode := Mode.scanning,
             startedContent := false, headbuf := [] }

/-- The step function projected onto skeletons: identical control flow,
with the window replaced by nothing (its length never feeds back into
control except through the startedContent flag, which is kept). -/
def skStep (ow : Bool) (k : Sk) (b : Nat) : Except Err Sk :=
  match k.mode with
  | Mode.scanning =>
    if b = NEWLINE then Except.ok { k with headbuf := [] }
    else if b = EQUALS then
      match whichAssignment k.headbuf with
      | none => Except.ok { k with headbuf := [], mode := Mode.skipline }
      | some t =>
        if skFoundOf k t then Except.ok { k with headbuf := [], mode := Mode.skipline }
        else if skSomeOf k t && !ow then Except.error Err.alreadyExists
        else Except.ok { k with mode := Mode.cap t, startedContent := false, headbuf := [] }
    else Except.ok { k with headbuf := k.headbuf ++ [b] }
  | Mode.skipline =>
    if b = NEWLINE then Except.ok { k with mode := Mode.scanning, headbuf := [] }
    else Except.ok k
  | Mode.cap t =>
    if !k.startedContent && isST b then Except.ok k
    else if b = NEWLINE then Except.ok (skClose k t)
    else Except.ok { k with startedContent := true }

/-- Run the skeleton step over a byte list. -/
def skRun (ow : Bool) : Sk → List Nat → Except Err Sk
  | k, [] => Except.ok k
  | k, b :: bs =>
    match skStep ow k b with
    | Except.ok k2 => skRun ow k2 bs
    | Except.error e => Except.error e

theorem procBytes_append (hm : Nat) (ow : Bool) (l1 l2 : List Nat) :
    ∀ st : St, procBytes hm ow st (l1 ++ l2) =
      match procBytes hm ow st l1 with
      | Except.ok st2 => procBytes hm ow st2 l2
      | Except.error e => Except.error e := by
  induction l1 with
  | nil => intro st; rfl
  | cons b bs ih =>
    intro st
    simp only [List.cons_append, procBytes]
    cases step hm ow st b with
    | ok st2 => exact ih st2
    | error e => rfl

theorem procChunks_eq (hm : Nat) (ow : Bool) (cs : List (List Nat)) :
    ∀ st : St, procChunks hm ow st cs = procBytes hm ow st cs.flatten := by
  induction cs with
  | nil => intro st; rfl
  | cons c cs ih =>
    intro st
    simp only [procChunks, List.flatten_cons, procBytes_append]
    cases procBytes hm ow st c with
    | ok st2 => exact ih st2
    | error e => rfl

theorem chunksOfAux_flatten (n : Nat) (hn : 1 ≤ n) :
    ∀ (fuel : Nat) (l : List Nat), l.length ≤ fuel →
      (chunksOfAux n fuel l).flatten = l := by
  intro fuel
  induction fuel with
  | zero =>
    intro l hl
    cases l with
    | nil => rfl
    | cons b bs => simp at hl
  | succ fuel ih =>
    intro l hl
    cases l with
    | nil => rfl
    | cons b bs =>
      simp only [chunksOfAux, List.flatten_cons]
      rw [ih ((b :: bs).drop n) (by simp at hl ⊢; omega)]
      exact List.take_append_drop n (b :: bs)

theorem chunksOf_flatten (n : Nat) (hn : 1 ≤ n) (l : List Nat) :
    (chunksOf n l).flatten = l :=
  chunksOfAux_flatten n hn l.length l (Nat.le_refl _)

/-- extract_chat_html on an existing regular file equals the flat
(unchunked) run followed by EOF finalization: the chunked read loop is
just a partition of the byte stream. -/
theorem extract_flat (input : List Nat) (data0 assets0 : Option (List Nat))
    (ow : Bool) (cs tb : Nat) :
    extract_chat_html true input data0 assets0 ow cs tb =
      outcomeOfRun (procBytes (max 1024 tb) ow (initSt data0 assets0) input) := by
  show (match procChunks (max 1024 tb) ow (initSt data0 assets0)
          (chunksOf (max 65536 cs) input) with
        | Except.ok st =>
          Outcome.ok (finishEOF st).foundJson (finishEOF st).foundAssets
            (finishEOF st).dataFile (finishEOF st).assetsFile
        | Except.error (e, st) => Outcome.fail e st.dataFile st.assetsFile) = _
  rw [procChunks_eq, chunksOf_flatten (max 65536 cs) (by omega) input]
  cases procBytes (max 1024 tb) ow (initSt data0 assets0) input with
  | ok st => rfl
  | error e => cases e; rfl

theorem trimRev_append (A B : List Nat)
    (hcond : (A ++ B).length - (trimRev (A ++ B)).length ≤ A.length) :
    trimRev (A ++ B) = trimRev A ++ B := by
  cases hA : A.dropWhile isSTC with
  | cons c r =>
    have h1 : (A ++ B).dropWhile isSTC = c :: (r ++ B) := by
      rw [List.dropWhile_append, hA]; simp
    simp only [trimRev, h1, hA]
    by_cases hc : c = SEMI <;> simp [hc]
  | nil =>
    have hAB : (A ++ B).dropWhile isSTC = B.dropWhile isSTC := by
      rw [List.dropWhile_append, hA]; simp
    cases hB : B.dropWhile isSTC with
    | nil =>
      have hBnil : B = [] := by
        have htr : trimRev (A ++ B) = [] := by
          simp only [trimRev, hAB, hB]
        rw [htr, List.length_append] at hcond
        simp only [List.length_nil, Nat.sub_zero] at hcond
        have : B.length = 0 := by omega
        exact List.eq_nil_of_length_eq_zero this
      subst hBnil
      simp [trimRev, hA]
    | cons c r =>
      have hBle := (List.dropWhile_sublist (l := B) isSTC).length_le
      rw [hB] at hBle
      simp only [List.length_cons] at hBle
      by_cases hc : c = SEMI
      · exfalso
        have htr : trimRev (A ++ B) = r := by
          simp only [trimRev, hAB, hB, if_pos hc]
        rw [htr, List.length_append] at hcond
        omega
      · have htr : trimRev (A ++ B) = c :: r := by
          simp only [trimRev, hAB, hB, if_neg hc]
        have hBeq : B = c :: r := by
          rw [htr, List.length_append, List.length_cons] at hcond
          have hsplit := List.takeWhile_append_dropWhile (p := isSTC) (l := B)
          have hlenB := congrArg List.length hsplit
          rw [hB] at hlenB
          simp only [List.length_append, List.length_cons] at hlenB
          have htw : (B.takeWhile isSTC).length = 0 := by omega
          rw [List.eq_nil_of_length_eq_zero htw, List.nil_append, hB] at hsplit
          exact hsplit.symm
        rw [htr, hBeq]
        simp only [trimRev, hA, List.nil_append]

theorem trimTail_append (u h : List Nat)
    (hcond : (u ++ h).length - (trimTail (u ++ h)).length ≤ h.length) :
    trimTail (u ++ h) = u ++ trimTail h := by
  have hrev : (u ++ h).reverse = h.reverse ++ u.reverse := by simp
  have hc2 : (h.reverse ++ u.reverse).length -
      (trimRev (h.reverse ++ u.reverse)).length ≤ h.reverse.length := by
    have : (trimTail (u ++ h)).length = (trimRev (h.reverse ++ u.reverse)).length := by
      rw [trimTail, hrev]; simp
    simp only [List.length_append, List.length_reverse] at *
    omega
  rw [trimTail, hrev, trimRev_append h.reverse u.reverse hc2]
  rw [trimTail]
  simp

theorem dropWhile_all_nil (p : Nat → Bool) (l : List Nat) (h : ∀ x ∈ l, p x = true) :
    l.dropWhile p = [] :=
  List.dropWhile_eq_nil_iff.mpr h

theorem trimTail_semi (y s2 : List Nat) (hs : ∀ c ∈ s2, isSTC c = true) :
    trimTail (y ++ SEMI :: s2) = y := by
  rw [trimTail]
  have h1 : (y ++ SEMI :: s2).reverse = s2.reverse ++ SEMI :: y.reverse := by simp
  rw [h1]
  have h2 : s2.reverse.dropWhile isSTC = [] := by
    apply dropWhile_all_nil
    intro x hx
    exact hs x (List.mem_reverse.mp hx)
  have h3 : (s2.reverse ++ SEMI :: y.reverse).dropWhile isSTC = SEMI :: y.reverse := by
    rw [List.dropWhile_append, h2]
    simp [List.dropWhile_cons, isSTC, SEMI, SPACE, TAB, CR]
  simp only [trimRev, h3, if_pos rfl]
  simp

theorem lstripST_append_notST (x : List Nat) (c : Nat) (r : List Nat)
    (hc : isST c = false) :
    lstripST (x ++ c :: r) = lstripST x ++ c :: r := by
  simp only [lstripST]
  rw [List.dropWhile_append]
  by_cases hx : x.dropWhile isST = [] <;> simp [hx, List.dropWhile_cons, hc]

theorem procBytes_scan (hm : Nat) (ow : Bool) (head : List Nat) :
    ∀ st : St, st.mode = Mode.scanning →
      (∀ b ∈ head, ¬b = NEWLINE ∧ ¬b = EQUALS) →
      procBytes hm ow st head = Except.ok { st with headbuf := st.headbuf ++ head } := by
  induction head with
  | nil =>
    intro st hmode _
    obtain ⟨fj, fa, mo, sc, ho, hb0, co, df, af⟩ := st
    simp [procBytes]
  | cons b bs ih =>
    intro st hmode hb
    obtain ⟨hb1, hb2⟩ := hb b (by simp)
    have hbs : ∀ x ∈ bs, ¬x = NEWLINE ∧ ¬x = EQUALS := fun x hx => hb x (by simp [hx])
    obtain ⟨fj, fa, mo, sc, ho, hb0, co, df, af⟩ := st
    simp only at hmode
    subst hmode
    simp only [procBytes, step, if_neg hb1, if_neg hb2]
    rw [ih _ rfl hbs]
    simp

theorem procBytes_skipline (hm : Nat) (ow : Bool) (bs : List Nat) :
    ∀ st : St, st.mode = Mode.skipline → (∀ b ∈ bs, ¬b = NEWLINE) →
      procBytes hm ow st bs = Except.ok st := by
  induction bs with
  | nil => intro st _ _; rfl
  | cons b bs ih =>
    intro st hmode hb
    have hb1 := hb b (by simp)
    have hbs : ∀ x ∈ bs, ¬x = NEWLINE := fun x hx => hb x (by simp [hx])
    simp only [procBytes, step, hmode, if_neg hb1]
    exact ih st hmode hbs

theorem procBytes_capST (hm : Nat) (ow : Bool) (s : List Nat) :
    ∀ (st : St) (t : Target), st.mode = Mode.cap t → st.startedContent = false →
      (∀ b ∈ s, isST b = true) →
      procBytes hm ow st s = Except.ok st := by
  induction s with
  | nil => intro st t _ _ _; rfl
  | cons b bs ih =>
    intro st t hmode hsc hb
    have hb1 := hb b (by simp)
    have hbs : ∀ x ∈ bs, isST x = true := fun x hx => hb x (by simp [hx])
    simp only [procBytes, step, hmode, hsc, hb1, Bool.not_false, Bool.and_self, if_pos]
    exact ih st t hmode hsc hbs

theorem procBytes_capPush (hm : Nat) (ow : Bool) (w : List Nat) :
    ∀ (st : St) (t : Target), st.mode = Mode.cap t → st.startedContent = true →
      (∀ b ∈ w, ¬b = NEWLINE) →
      procBytes hm ow st w =
        Except.ok { st with
          curOut := (List.foldl (capPush hm) (st.curOut, st.hold) w).1,
          hold := (List.foldl (capPush hm) (st.curOut, st.hold) w).2 } := by
  induction w with
  | nil =>
    intro st t hmode hsc _
    obtain ⟨fj, fa, mo, sc, ho, hb0, co, df, af⟩ := st
    simp [procBytes]
  | cons b bs ih =>
    intro st t hmode hsc hb
    have hb1 := hb b (by simp)
    have hbs : ∀ x ∈ bs, ¬x = NEWLINE := fun x hx => hb x (by simp [hx])
    obtain ⟨fj, fa, mo, sc, ho, hb0, co, df, af⟩ := st
    simp only at hmode hsc
    subst hmode; subst hsc
    by_cases hl : ho.length + 1 = hm
    · have hl1 : (ho ++ [b]).length = hm := by simp [hl]
      simp only [procBytes, step, Bool.not_true, Bool.false_and, Bool.false_eq_true,
        if_false, if_neg hb1, if_pos hl1, List.foldl_cons]
      rw [ih _ t rfl rfl hbs]
      have hcp : capPush hm (co, ho) b = (co ++ (ho ++ [b]).take 1, (ho ++ [b]).tail) := by
        simp [capPush, hl]
      rw [hcp]
    · have hl1 : ¬(ho ++ [b]).length = hm := by simpa using hl
      simp only [procBytes, step, Bool.not_true, Bool.false_and, Bool.false_eq_true,
        if_false, if_neg hb1, if_neg hl1, List.foldl_cons]
      rw [ih _ t rfl rfl hbs]
      have hcp : capPush hm (co, ho) b = (co, ho ++ [b]) := by
        simp [capPush, hl]
      rw [hcp]

theorem capPush_foldl_append (hm : Nat) (w : List Nat) :
    ∀ co h : List Nat,
      (List.foldl (capPush hm) (co, h) w).1 ++ (List.foldl (capPush hm) (co, h) w).2 =
        co ++ h ++ w := by
  induction w with
  | nil => intro co h; simp
  | cons b bs ih =>
    intro co h
    simp only [List.foldl_cons]
    by_cases hl : h.length + 1 = hm
    · have hc : capPush hm (co, h) b = (co ++ (h ++ [b]).take 1, (h ++ [b]).tail) := by
        simp [capPush, hl]
      rw [hc, ih]
      have hkey : (h ++ [b]).take 1 ++ (h ++ [b]).tail = h ++ [b] := by
        cases hhb : h ++ [b] with
        | nil => simp at hhb
        | cons x xs => simp
      rw [List.append_assoc co (List.take 1 (h ++ [b])) ((h ++ [b]).tail)]
      rw [hkey]
      simp
    · have hc : capPush hm (co, h) b = (co, h ++ [b]) := by simp [capPush, hl]
      rw [hc, ih]
      simp

theorem capPush_foldl_length (hm : Nat) (hhm : 2 ≤ hm) (w : List Nat) :
    ∀ co h : List Nat, h.length + 1 ≤ hm →
      (List.foldl (capPush hm) (co, h) w).2.length =
        min (h.length + w.length) (hm - 1) := by
  induction w with
  | nil =>
    intro co h hh
    simp only [List.foldl_nil, List.length_nil, Nat.add_zero]
    omega
  | cons b bs ih =>
    intro co h hh
    simp only [List.foldl_cons]
    have htl : (h ++ [b]).tail.length = h.length := by
      rw [List.length_tail]; simp
    by_cases hl : h.length + 1 = hm
    · have hc : capPush hm (co, h) b = (co ++ (h ++ [b]).take 1, (h ++ [b]).tail) := by
        simp [capPush, hl]
      rw [hc, ih _ _ (by omega)]
      rw [htl]
      simp only [List.length_cons]
      omega
    · have hc : capPush hm (co, h) b = (co, h ++ [b]) := by simp [capPush, hl]
      rw [hc, ih _ _ (by simp; omega)]
      simp only [List.length_append, List.length_cons, List.length_nil]
      omega

theorem capFold_content (hm : Nat) (hhm : 2 ≤ hm) (w : List Nat)
    (hfit : w.length - (trimTail w).length ≤ hm - 1) :
    (List.foldl (capPush hm) ([], []) w).1 ++
      trimTail (List.foldl (capPush hm) ([], []) w).2 = trimTail w := by
  have hch := capPush_foldl_append hm w [] []
  have hlen := capPush_foldl_length hm hhm w [] [] (by simp; omega)
  simp only [List.nil_append, List.length_nil, Nat.zero_add] at hch hlen
  by_cases hw : w.length ≤ hm - 1
  · have h2 : (List.foldl (capPush hm) ([], []) w).2.length = w.length := by omega
    have h1 : (List.foldl (capPush hm) ([], []) w).1.length = 0 := by
      have := congrArg List.length hch
      simp only [List.length_append] at this
      omega
    rw [List.eq_nil_of_length_eq_zero h1] at hch ⊢
    rw [List.nil_append] at hch ⊢
    rw [hch]
  · have h2 : (List.foldl (capPush hm) ([], []) w).2.length = hm - 1 := by omega
    have hcond : ((List.foldl (capPush hm) ([], []) w).1 ++
        (List.foldl (capPush hm) ([], []) w).2).length -
        (trimTail ((List.foldl (capPush hm) ([], []) w).1 ++
          (List.foldl (capPush hm) ([], []) w).2)).length ≤
        (List.foldl (capPush hm) ([], []) w).2.length := by
      rw [hch, h2]
      exact hfit
    have := trimTail_append _ _ hcond
    rw [hch] at this
    rw [← this]

theorem dropWhile_head_false (p : Nat → Bool) :
    ∀ (l : List Nat) (c : Nat) (r : List Nat), l.dropWhile p = c :: r → p c = false := by
  intro l
  induction l with
  | nil => intro c r h; simp at h
  | cons x xs ih =>
    intro c r h
    by_cases hx : p x
    · rw [List.dropWhile_cons_of_pos hx] at h
      exact ih c r h
    · rw [List.dropWhile_cons_of_neg hx] at h
      cases h
      simpa using hx

theorem foundOf_update_headbuf (st : St) (hb : List Nat) (t : Target) :
    foundOf { st with headbuf := hb } t = foundOf st t := by
  cases t <;> rfl

theorem fileOf_update_headbuf (st : St) (hb : List Nat) (t : Target) :
    fileOf { st with headbuf := hb } t = fileOf st t := by
  cases t <;> rfl

theorem capDone_update (st : St) (mo : Mode) (sc : Bool) (ho hb co : List Nat)
    (t : Target) (c : List Nat) :
    capDone { st with mode := mo, startedContent := sc, hold := ho,
                      headbuf := hb, curOut := co } t c = capDone st t c := by
  cases t <;> rfl

theorem fileOf_capDone (st : St) (t : Target) (c : List Nat) :
    fileOf (capDone st t c) t = some c := by
  cases t <;> rfl

theorem foundOf_capDone (st : St) (t : Target) (c : List Nat) :
    foundOf (capDone st t c) t = true := by
  cases t <;> rfl

theorem fileOf_close (st : St) (t : Target) (c : List Nat) :
    fileOf (setFound (setFile st t c) t) t = some c := by
  cases t <;> rfl

theorem foundOf_close (st : St) (t : Target) (c : List Nat) :
    foundOf (setFound (setFile st t c) t) t = true := by
  cases t <;> rfl

/-- Streaming the value bytes of a line (no newline among them) from the
start of a capture: leading spaces/tabs are discarded, every later byte
goes through the bounded window, evicting the oldest byte to the output
when full. -/
theorem capSegment (hm : Nat) (ow : Bool) (hhm : 2 ≤ hm) (v : List Nat)
    (st : St) (t : Target)
    (hmode : st.mode = Mode.cap t) (hsc : st.startedContent = false)
    (hhold : st.hold = []) (hco : st.curOut = [])
    (hv : ∀ b ∈ v, ¬b = NEWLINE) :
    procBytes hm ow st v =
      Except.ok { st with
        startedContent := !(lstripST v).isEmpty,
        curOut := (List.foldl (capPush hm) ([], []) (lstripST v)).1,
        hold := (List.foldl (capPush hm) ([], []) (lstripST v)).2 } := by
  obtain ⟨fj, fa, mo, sc, ho, hb0, co, df, af⟩ := st
  simp only at hmode hsc hhold hco
  subst hmode; subst hsc; subst hhold; subst hco
  have hta : ∀ b ∈ v.takeWhile isST, isST b = true := by
    intro b hb
    exact List.mem_takeWhile_imp hb
  have h1 := procBytes_append hm ow (v.takeWhile isST) (v.dropWhile isST)
    ⟨fj, fa, Mode.cap t, false, [], hb0, [], df, af⟩
  rw [List.takeWhile_append_dropWhile] at h1
  rw [h1, procBytes_capST hm ow _ _ t rfl rfl hta]
  show procBytes hm ow _ (v.dropWhile isST) = _
  have hlv : lstripST v = v.dropWhile isST := rfl
  rw [hlv]
  cases hd : v.dropWhile isST with
  | nil => simp [procBytes]
  | cons c rest =>
    have hrest : ∀ b ∈ rest, ¬b = NEWLINE := by
      intro b hb
      have : b ∈ v.dropWhile isST := by rw [hd]; simp [hb]
      exact hv b ((List.dropWhile_sublist isST).subset this)
    have hcmem : c ∈ v := by
      have : c ∈ v.dropWhile isST := by rw [hd]; simp
      exact (List.dropWhile_sublist isST).subset this
    have hcnl : ¬c = NEWLINE := hv c hcmem
    have hcst : isST c = false := dropWhile_head_false isST v c rest hd
    have hlen1 : ¬(([] : List Nat) ++ [c]).length = hm := by simp; omega
    simp only [procBytes, step, Bool.not_false, Bool.true_and, hcst,
      Bool.false_eq_true, if_false, if_neg hcnl, if_neg hlen1]
    rw [procBytes_capPush hm ow rest _ t rfl rfl hrest]
    have hcp : capPush hm ([], []) c = ([], [] ++ [c]) := by
      simp [capPush]; omega
    simp [List.foldl_cons, hcp]

/-- Scanning a matching head, the equals sign and the raw value bytes of
a not-yet-found target: the sink opens and the value streams through the
window. -/
theorem captureNoNL (hm : Nat) (ow : Bool) (hhm : 2 ≤ hm) (st : St) (t : Target)
    (head v : List Nat)
    (hmode : st.mode = Mode.scanning) (hhb : st.headbuf = [])
    (hhead : ∀ b ∈ head, ¬b = NEWLINE ∧ ¬b = EQUALS)
    (hwa : whichAssignment head = some t)
    (hnf : foundOf st t = false)
    (hop : openFails (fileOf st t) ow = false)
    (hv : ∀ b ∈ v, ¬b = NEWLINE) :
    procBytes hm ow st (head ++ EQUALS :: v) =
      Except.ok { st with
        mode := Mode.cap t,
        startedContent := !(lstripST v).isEmpty,
        headbuf := [],
        curOut := (List.foldl (capPush hm) ([], []) (lstripST v)).1,
        hold := (List.foldl (capPush hm) ([], []) (lstripST v)).2 } := by
  obtain ⟨fj, fa, mo, sc, ho, hb0, co, df, af⟩ := st
  simp only at hmode hhb
  subst hmode; subst hhb
  rw [procBytes_append, procBytes_scan hm ow head _ rfl hhead]
  show procBytes hm ow _ (EQUALS :: v) = _
  have hne : ¬EQUALS = NEWLINE := by decide
  have hnf2 : foundOf ⟨fj, fa, Mode.scanning, sc, ho, [] ++ head, co, df, af⟩ t = false := by
    cases t <;> exact hnf
  have hop2 : openFails (fileOf ⟨fj, fa, Mode.scanning, sc, ho, [] ++ head, co, df, af⟩ t)
      ow = false := by
    cases t <;> exact hop
  have hwa2 : whichAssignment ([] ++ head) = some t := by simpa using hwa
  have hstep : step hm ow ⟨fj, fa, Mode.scanning, sc, ho, [] ++ head, co, df, af⟩ EQUALS =
      Except.ok ⟨fj, fa, Mode.cap t, false, [], [], [], df, af⟩ := by
    simp only [step, if_neg hne, if_pos rfl, if_true, hwa2, hnf2, hop2,
      Bool.false_eq_true, if_false]
  simp only [procBytes, hstep]
  rw [capSegment hm ow hhm v _ t rfl rfl rfl rfl hv]

/-- A full matching line for a not-yet-found target, terminated by a
newline: the target's file receives exactly the left-stripped,
tail-trimmed value, provided the trimmed suffix fits in the window. -/
theorem captureLine (hm : Nat) (ow : Bool) (hhm : 2 ≤ hm) (st : St) (t : Target)
    (head v : List Nat)
    (hmode : st.mode = Mode.scanning) (hhb : st.headbuf = [])
    (hhead : ∀ b ∈ head, ¬b = NEWLINE ∧ ¬b = EQUALS)
    (hwa : whichAssignment head = some t)
    (hnf : foundOf st t = false)
    (hop : openFails (fileOf st t) ow = false)
    (hv : ∀ b ∈ v, ¬b = NEWLINE)
    (hfit : (lstripST v).length - (trimTail (lstripST v)).length ≤ hm - 1) :
    procBytes hm ow st (head ++ EQUALS :: (v ++ [NEWLINE])) =
      Except.ok (capDone st t (trimTail (lstripST v))) := by
  have hassoc : head ++ EQUALS :: (v ++ [NEWLINE]) = (head ++ EQUALS :: v) ++ [NEWLINE] := by
    simp
  rw [hassoc, procBytes_append,
    captureNoNL hm ow hhm st t head v hmode hhb hhead hwa hnf hop hv]
  show procBytes hm ow _ [NEWLINE] = _
  have hstF : isST NEWLINE = false := by decide
  simp only [procBytes, step, hstF, Bool.and_false, Bool.false_eq_true, if_false,
    if_pos rfl, if_true]
  rw [capDone_update]
  rw [capFold_content hm hhm (lstripST v) hfit]

/-- A later line assigning an already-found target is routed to line
skipping and leaves the entire state unchanged: the line is a no-op. -/
theorem skipDupLine (hm : Nat) (ow : Bool) (st : St) (t : Target) (head v : List Nat)
    (hmode : st.mode = Mode.scanning) (hhb : st.headbuf = [])
    (hhead : ∀ b ∈ head, ¬b = NEWLINE ∧ ¬b = EQUALS)
    (hwa : whichAssignment head = some t)
    (hf : foundOf st t = true)
    (hv : ∀ b ∈ v, ¬b = NEWLINE) :
    procBytes hm ow st (head ++ EQUALS :: (v ++ [NEWLINE])) = Except.ok st := by
  obtain ⟨fj, fa, mo, sc, ho, hb0, co, df, af⟩ := st
  simp only at hmode hhb
  subst hmode; subst hhb
  rw [procBytes_append, procBytes_scan hm ow head _ rfl hhead]
  show procBytes hm ow _ (EQUALS :: (v ++ [NEWLINE])) = _
  have hne : ¬EQUALS = NEWLINE := by decide
  have hf2 : foundOf ⟨fj, fa, Mode.scanning, sc, ho, [] ++ head, co, df, af⟩ t = true := by
    cases t <;> exact hf
  have hwa2 : whichAssignment ([] ++ head) = some t := by simpa using hwa
  have hstep : step hm ow ⟨fj, fa, Mode.scanning, sc, ho, [] ++ head, co, df, af⟩ EQUALS =
      Except.ok ⟨fj, fa, Mode.skipline, sc, ho, [], co, df, af⟩ := by
    simp only [step, if_neg hne, if_pos rfl, if_true, hwa2, hf2]
  simp only [procBytes, hstep]
  rw [procBytes_append, procBytes_skipline hm ow v _ rfl hv]
  show procBytes hm ow _ [NEWLINE] = _
  simp only [procBytes, step, if_pos rfl, if_true]

/-- A matching line for a not-yet-found target whose destination already
exists, without overwrite: the run aborts with AlreadyExists before the
sink is opened, leaving both destination files as they were. -/
theorem openErrLine (hm : Nat) (ow : Bool) (st : St) (t : Target) (head rest : List Nat)
    (hmode : st.mode = Mode.scanning) (hhb : st.headbuf = [])
    (hhead : ∀ b ∈ head, ¬b = NEWLINE ∧ ¬b = EQUALS)
    (hwa : whichAssignment head = some t)
    (hnf : foundOf st t = false)
    (hop : openFails (fileOf st t) ow = true) :
    procBytes hm ow st (head ++ EQUALS :: rest) =
      Except.error (Err.alreadyExists, { st with headbuf := head }) := by
  obtain ⟨fj, fa, mo, sc, ho, hb0, co, df, af⟩ := st
  simp only at hmode hhb
  subst hmode; subst hhb
  rw [procBytes_append, procBytes_scan hm ow head _ rfl hhead]
  show procBytes hm ow _ (EQUALS :: rest) = _
  have hne : ¬EQUALS = NEWLINE := by decide
  have hnf2 : foundOf ⟨fj, fa, Mode.scanning, sc, ho, [] ++ head, co, df, af⟩ t = false := by
    cases t <;> exact hnf
  have hop2 : openFails (fileOf ⟨fj, fa, Mode.scanning, sc, ho, [] ++ head, co, df, af⟩ t)
      ow = true := by
    cases t <;> exact hop
  have hwa2 : whichAssignment ([] ++ head) = some t := by simpa using hwa
  have hstep : step hm ow ⟨fj, fa, Mode.scanning, sc, ho, [] ++ head, co, df, af⟩ EQUALS =
      Except.error (Err.alreadyExists,
        ⟨fj, fa, Mode.scanning, sc, ho, [] ++ head, co, df, af⟩) := by
    simp only [step, if_neg hne, if_pos rfl, if_true, hwa2, hnf2, hop2,
      Bool.false_eq_true, if_false]
  simp only [procBytes, hstep]
  simp

/-- A newline while capturing finalizes the capture exactly as capDone. -/
theorem step_cap_newline (hm : Nat) (ow : Bool) (st : St) (t : Target)
    (hmode : st.mode = Mode.cap t) :
    step hm ow st NEWLINE = Except.ok (capDone st t (st.curOut ++ trimTail st.hold)) := by
  have hstF : isST NEWLINE = false := by decide
  simp only [step, hmode, hstF, Bool.and_false, Bool.false_eq_true, if_false,
    if_pos rfl, if_true]

/-- Hitting EOF while capturing produces the same observable outcome as
first seeing one more newline: the EOF finalization equals the newline
finalization. -/
theorem eofVsNewline (hm : Nat) (ow : Bool) (input : List Nat) (st0 st : St) (t : Target)
    (hrun : procBytes hm ow st0 input = Except.ok st)
    (hmode : st.mode = Mode.cap t) :
    outcomeOfRun (procBytes hm ow st0 (input ++ [NEWLINE])) =
      outcomeOfRun (procBytes hm ow st0 input) := by
  rw [procBytes_append, hrun]
  show outcomeOfRun (procBytes hm ow st [NEWLINE]) = _
  simp only [procBytes, step_cap_newline hm ow st t hmode, hrun]
  obtain ⟨fj, fa, mo, sc, ho, hb0, co, df, af⟩ := st
  simp only at hmode
  subst hmode
  cases t <;> simp [outcomeOfRun, finishEOF, capDone, setFound, setFile]

theorem step_error_kind (hm : Nat) (ow : Bool) (st : St) (b : Nat) (e : Err) (st2 : St)
    (h : step hm ow st b = Except.error (e, st2)) : e = Err.alreadyExists := by
  unfold step at h
  repeat' split at h
  all_goals try simp_all
  all_goals (split at h <;> simp_all)

theorem procBytes_error_kind (hm : Nat) (ow : Bool) (bs : List Nat) :
    ∀ (st : St) (e : Err) (st2 : St),
      procBytes hm ow st bs = Except.error (e, st2) → e = Err.alreadyExists := by
  induction bs with
  | nil => intro st e st2 h; simp [procBytes] at h
  | cons b bs ih =>
    intro st e st2 h
    simp only [procBytes] at h
    cases hstep : step hm ow st b with
    | ok st3 =>
      rw [hstep] at h
      exact ih st3 e st2 h
    | error p =>
      rw [hstep] at h
      obtain ⟨e2, st3⟩ := p
      have hinj : e2 = e ∧ st3 = st2 := by simpa using h
      rw [← hinj.1]
      exact step_error_kind hm ow st b e2 st3 hstep

theorem sk_mode (st : St) : (sk st).mode = st.mode := rfl

theorem sk_headbuf (st : St) : (sk st).headbuf = st.headbuf := rfl

theorem sk_started (st : St) : (sk st).startedContent = st.startedContent := rfl

theorem skFoundOf_sk (st : St) (t : Target) : skFoundOf (sk st) t = foundOf st t := by
  cases t <;> rfl

theorem skSomeOf_sk (st : St) (t : Target) : skSomeOf (sk st) t = (fileOf st t).isSome := by
  cases t <;> rfl

theorem sk_capDone (st : St) (t : Target) (c : List Nat) :
    sk (capDone st t c) = skClose (sk st) t := by
  cases t <;> rfl

theorem sk_upd_hb (st : St) (x : List Nat) :
    sk { st with headbuf := x } = { sk st with headbuf := x } := rfl

theorem sk_upd_skip (st : St) (x : List Nat) :
    sk { st with headbuf := x, mode := Mode.skipline } =
      { sk st with headbuf := x, mode := Mode.skipline } := rfl

theorem sk_upd_scan (st : St) (x : List Nat) :
    sk { st with mode := Mode.scanning, headbuf := x } =
      { sk st with mode := Mode.scanning, headbuf := x } := rfl

theorem sk_upd_open (st : St) (t : Target) :
    sk { st with mode := Mode.cap t, startedContent := false,
                 hold := ([] : List Nat), headbuf := ([] : List Nat),
                 curOut := ([] : List Nat) } =
      { sk st with mode := Mode.cap t, startedContent := false,
                   headbuf := ([] : List Nat) } := rfl

theorem sk_upd_push1 (st : St) (h1 c1 : List Nat) :
    sk { st with startedContent := true, hold := h1, curOut := c1 } =
      { sk st with startedContent := true } := rfl

theorem sk_upd_push2 (st : St) (h1 : List Nat) :
    sk { st with startedContent := true, hold := h1 } =
      { sk st with startedContent := true } := rfl

theorem step_sim_ok (hm : Nat) (ow : Bool) (st : St) (b : Nat) (r : St)
    (h : step hm ow st b = Except.ok r) :
    skStep ow (sk st) b = Except.ok (sk r) := by
  unfold step at h
  repeat' split at h
  all_goals try (simp only [] at h; split at h)
  all_goals try exact (Except.noConfusion h)
  all_goals injection h with h
  all_goals subst h
  all_goals try
    simp_all [skStep, sk_mode, sk_headbuf, sk_started, skFoundOf_sk, skSomeOf_sk,
      sk_capDone, sk_upd_hb, sk_upd_skip, sk_upd_scan, sk_upd_open, sk_upd_push1,
      sk_upd_push2, openFails]
  all_goals
    rename_i himp hnl hlen
  all_goals
    have hC : ¬(st.startedContent = false ∧ isST b = true) := by
      rintro ⟨h5, h6⟩
      rw [himp h5] at h6
      exact Bool.false_ne_true h6
  all_goals rw [if_neg hC]
  all_goals simp [sk]

theorem step_sim_err (hm : Nat) (ow : Bool) (st : St) (b : Nat) (e : Err) (p : St)
    (h : step hm ow st b = Except.error (e, p)) :
    skStep ow (sk st) b = Except.error e := by
  unfold step at h
  repeat' split at h
  all_goals try (simp only [] at h; split at h)
  all_goals try exact (Except.noConfusion h)
  all_goals injection h with h
  all_goals
    simp_all [skStep, sk_mode, sk_headbuf, sk_started, skFoundOf_sk, skSomeOf_sk,
      openFails, Prod.ext_iff]

theorem step_sim (hm : Nat) (ow : Bool) (st : St) (b : Nat) :
    (∃ r, step hm ow st b = Except.ok r ∧ skStep ow (sk st) b = Except.ok (sk r)) ∨
    (∃ e p, step hm ow st b = Except.error (e, p) ∧ skStep ow (sk st) b = Except.error e) := by
  cases hs : step hm ow st b with
  | ok r => exact Or.inl ⟨r, rfl, step_sim_ok hm ow st b r hs⟩
  | error p =>
    obtain ⟨e, pst⟩ := p
    exact Or.inr ⟨e, pst, rfl, step_sim_err hm ow st b e pst hs⟩

theorem procBytes_sim (hm : Nat) (ow : Bool) (bs : List Nat) :
    ∀ st : St,
      (∃ r, procBytes hm ow st bs = Except.ok r ∧ skRun ow (sk st) bs = Except.ok (sk r)) ∨
      (∃ e p, procBytes hm ow st bs = Except.error (e, p) ∧
        skRun ow (sk st) bs = Except.error e) := by
  induction bs with
  | nil => intro st; exact Or.inl ⟨st, rfl, rfl⟩
  | cons b bs ih =>
    intro st
    rcases step_sim hm ow st b with ⟨r, hs, hk⟩ | ⟨e, p, hs, hk⟩
    · rcases ih r with ⟨r2, hs2, hk2⟩ | ⟨e2, p2, hs2, hk2⟩
      · exact Or.inl ⟨r2, by simp [procBytes, hs, hs2], by simp [skRun, hk, hk2]⟩
      · exact Or.inr ⟨e2, p2, by simp [procBytes, hs, hs2], by simp [skRun, hk, hk2]⟩
    · exact Or.inr ⟨e, p, by simp [procBytes, hs], by simp [skRun, hk]⟩

theorem captureEOF (hm : Nat) (ow : Bool) (hhm : 2 ≤ hm) (st : St) (t : Target)
    (head v : List Nat)
    (hmode : st.mode = Mode.scanning) (hhb : st.headbuf = [])
    (hhead : ∀ b ∈ head, ¬b = NEWLINE ∧ ¬b = EQUALS)
    (hwa : whichAssignment head = some t)
    (hnf : foundOf st t = false)
    (hop : openFails (fileOf st t) ow = false)
    (hv : ∀ b ∈ v, ¬b = NEWLINE)
    (hfit : (lstripST v).length - (trimTail (lstripST v)).length ≤ hm - 1) :
    ∃ st2, procBytes hm ow st (head ++ EQUALS :: v) = Except.ok st2 ∧
      fileOf (finishEOF st2) t = some (trimTail (lstripST v)) ∧
      foundOf (finishEOF st2) t = true := by
  refine ⟨_, captureNoNL hm ow hhm st t head v hmode hhb hhead hwa hnf hop hv, ?_, ?_⟩
  · show fileOf (setFound (setFile _ t _) t) t = _
    rw [fileOf_close]
    exact congrArg some (capFold_content hm hhm (lstripST v) hfit)
  · show foundOf (setFound (setFile _ t _) t) t = true
    rw [foundOf_close]

/-- C1: for an input line whose head (the bytes before the first equals
sign) matches a not-yet-found target, provided the open succeeds and the
trimmed suffix (trailing space/tab/CR run plus optional semicolon) fits
in the trailing window, the target's output file receives exactly the
value bytes between the equals sign and the line terminator (newline or
EOF), with only the immediate leading spaces/tabs removed (lstripST) and
the documented trailing trim applied (trimTail): no other bytes added,
removed or reordered. -/
theorem C1_capture_exact_value
    (hm : Nat) (ow : Bool) (st : St) (t : Target) (head v : List Nat)
    (hhm : 2 ≤ hm)
    (hmode : st.mode = Mode.scanning) (hhb : st.headbuf = [])
    (hhead : ∀ b ∈ head, ¬b = NEWLINE ∧ ¬b = EQUALS)
    (hwa : whichAssignment head = some t)
    (hnf : foundOf st t = false)
    (hop : openFails (fileOf st t) ow = false)
    (hv : ∀ b ∈ v, ¬b = NEWLINE)
    (hfit : (lstripST v).length - (trimTail (lstripST v)).length ≤ hm - 1) :
    procBytes hm ow st (head ++ EQUALS :: (v ++ [NEWLINE])) =
      Except.ok (capDone st t (trimTail (lstripST v)))
    ∧ fileOf (capDone st t (trimTail (lstripST v))) t = some (trimTail (lstripST v))
    ∧ foundOf (capDone st t (trimTail (lstripST v))) t = true
    ∧ (∃ st2, procBytes hm ow st (head ++ EQUALS :: v) = Except.ok st2 ∧
        fileOf (finishEOF st2) t = some (trimTail (lstripST v)) ∧
        foundOf (finishEOF st2) t = true) :=
  ⟨captureLine hm ow hhm st t head v hmode hhb hhead hwa hnf hop hv hfit,
   fileOf_capDone st t _, foundOf_capDone st t _,
   captureEOF hm ow hhm st t head v hmode hhb hhead hwa hnf hop hv hfit⟩

theorem C1_capture_exact_value_witness :
    whichAssignment c1Head = some Target.json ∧
    (lstripST c1Val).length - (trimTail (lstripST c1Val)).length ≤ 1024 - 1 ∧
    (procBytes 1024 false (initSt none none) (c1Head ++ EQUALS :: (c1Val ++ [NEWLINE])) =
      Except.ok (capDone (initSt none none) Target.json (trimTail (lstripST c1Val)))
    ∧ fileOf (capDone (initSt none none) Target.json (trimTail (lstripST c1Val)))
        Target.json = some (trimTail (lstripST c1Val))
    ∧ foundOf (capDone (initSt none none) Target.json (trimTail (lstripST c1Val)))
        Target.json = true
    ∧ (∃ st2, procBytes 1024 false (initSt none none) (c1Head ++ EQUALS :: c1Val) =
          Except.ok st2 ∧
        fileOf (finishEOF st2) Target.json = some (trimTail (lstripST c1Val)) ∧
        foundOf (finishEOF st2) Target.json = true)) :=
  ⟨by decide, by decide,
   C1_capture_exact_value 1024 false (initSt none none) Target.json c1Head c1Val
     (by decide) rfl rfl (by decide) (by decide) rfl rfl (by decide) (by decide)⟩

/-- C2 counterexample: the input line var jsonData equals three spaces,
the bracketed value, two spaces, a semicolon, two spaces and a newline
does NOT produce an output file of exactly the seven value bytes: the
two spaces that stood before the semicolon survive the trim, so the file
holds nine bytes. -/
theorem C2_exact_trim_counterexample :
    extract_chat_html true c2Input none none false 65536 8192 =
      Outcome.ok true false (some c2OutBytes) none ∧
    (extract_chat_html true c2Input none none false 65536 8192 ==
      Outcome.ok true false (some [91, 49, 44, 50, 44, 51, 93]) none) = false ∧
    (c2OutBytes == [91, 49, 44, 50, 44, 51, 93]) = false := by
  refine ⟨rfl, by decide, by decide⟩

/-- C2 (amended): for a captured value of the form x, then exactly one
semicolon, then a run of spaces/tabs/CR before the newline, the emitted
file content is exactly lstripST x: the trailing semicolon and the
space/tab/CR after it are stripped, but space/tab/CR standing before the
semicolon is retained.  In particular the line var jsonData equals three
spaces, bracketed value, two spaces, semicolon, two spaces, newline
yields the value followed by those two pre-semicolon spaces, not the
bare value. -/
theorem C2_exact_trim_amended
    (hm : Nat) (ow : Bool) (st : St) (x s2 : List Nat)
    (hhm : 2 ≤ hm)
    (hmode : st.mode = Mode.scanning) (hhb : st.headbuf = [])
    (hnf : st.foundJson = false)
    (hop : openFails st.dataFile ow = false)
    (hx : ∀ b ∈ x, ¬b = NEWLINE)
    (hs2 : ∀ c ∈ s2, isSTC c = true)
    (hfit : s2.length + 1 ≤ hm - 1) :
    procBytes hm ow st (headVarJson ++ EQUALS :: ((x ++ SEMI :: s2) ++ [NEWLINE])) =
      Except.ok (capDone st Target.json (lstripST x))
    ∧ extract_chat_html true c2Input none none false 65536 8192 =
        Outcome.ok true false (some c2OutBytes) none := by
  have hv : ∀ b ∈ x ++ SEMI :: s2, ¬b = NEWLINE := by
    intro b hb
    rcases List.mem_append.mp hb with h | h
    · exact hx b h
    · rcases List.mem_cons.mp h with rfl | h
      · decide
      · have hstc := hs2 b h
        intro hbnl
        subst hbnl
        exact absurd hstc (by decide)
  have hlv : lstripST (x ++ SEMI :: s2) = lstripST x ++ SEMI :: s2 :=
    lstripST_append_notST x SEMI s2 (by decide)
  have htt : trimTail (lstripST x ++ SEMI :: s2) = lstripST x :=
    trimTail_semi (lstripST x) s2 hs2
  have hfit2 : (lstripST (x ++ SEMI :: s2)).length -
      (trimTail (lstripST (x ++ SEMI :: s2))).length ≤ hm - 1 := by
    rw [hlv, htt]
    simp only [List.length_append, List.length_cons]
    omega
  have h1 := captureLine hm ow hhm st Target.json headVarJson (x ++ SEMI :: s2)
    hmode hhb (by decide) (by decide) hnf hop hv hfit2
  rw [hlv, htt] at h1
  exact ⟨h1, rfl⟩

theorem C2_exact_trim_amended_witness :
    (∀ c ∈ [SPACE, SPACE], isSTC c = true) ∧
    procBytes 1024 false (initSt none none)
      (headVarJson ++ EQUALS ::
        (([32, 32, 32, 91, 49, 44, 50, 44, 51, 93, 32, 32] ++ SEMI :: [SPACE, SPACE])
          ++ [NEWLINE])) =
      Except.ok (capDone (initSt none none) Target.json
        (lstripST [32, 32, 32, 91, 49, 44, 50, 44, 51, 93, 32, 32])) :=
  ⟨by decide,
   (C2_exact_trim_amended 1024 false (initSt none none)
     [32, 32, 32, 91, 49, 44, 50, 44, 51, 93, 32, 32] [SPACE, SPACE]
     (by decide) rfl rfl rfl rfl (by decide) (by decide) (by decide)).1⟩

/-- C3: the Head Matcher is a pure function of the byte slice before the
equals sign and equals, for every input, the specification's four-step
algorithm (strip spaces/tabs; strip at most one of the keywords var,
let, const checked in that fixed order with the first match winning,
then strip again; strip an optional window. prefix then strip again;
classify by a prefix test on jsonData then assetsJson); it performs no
check on what follows the recognized name, so the head jsonDataExtra
still classifies as Json. -/
theorem C3_head_matcher_spec :
    (∀ head : List Nat, whichAssignment head = headMatcherSpec head) ∧
    whichAssignment headJsonDataExtra = some Target.json := by
  constructor
  · intro head
    rfl
  · decide

/-- C4: a line assigning an already-found target is routed to line
skipping without opening that target's output file: processing the whole
line returns the state unchanged, so the output file keeps the first
assignment's value even when the later value differs, and no error is
raised even if the destination exists without overwrite permission. -/
theorem C4_first_occurrence_wins
    (hm : Nat) (ow : Bool) (st : St) (t : Target) (head v : List Nat)
    (hmode : st.mode = Mode.scanning) (hhb : st.headbuf = [])
    (hhead : ∀ b ∈ head, ¬b = NEWLINE ∧ ¬b = EQUALS)
    (hwa : whichAssignment head = some t)
    (hf : foundOf st t = true)
    (hv : ∀ b ∈ v, ¬b = NEWLINE) :
    procBytes hm ow st (head ++ EQUALS :: (v ++ [NEWLINE])) = Except.ok st :=
  skipDupLine hm ow st t head v hmode hhb hhead hwa hf hv

theorem C4_first_occurrence_wins_witness :
    foundOf { initSt (some [120]) none with foundJson := true } Target.json = true ∧
    procBytes 1024 false { initSt (some [120]) none with foundJson := true }
      (c1Head ++ EQUALS :: ([91, 50, 93] ++ [NEWLINE])) =
      Except.ok { initSt (some [120]) none with foundJson := true } :=
  ⟨by decide,
   C4_first_occurrence_wins 1024 false
     { initSt (some [120]) none with foundJson := true } Target.json c1Head [91, 50, 93]
     rfl rfl (by decide) (by decide) rfl (by decide)⟩

/-- C5: an input that reaches EOF while a capture is in progress yields
the same outcome (found results and byte-identical output files) as the
same input with a single trailing newline appended: EOF runs the same
finalization as a newline. -/
theorem C5_eof_equals_newline
    (input : List Nat) (d0 a0 : Option (List Nat)) (ow : Bool) (cs tb : Nat)
    (h : ∃ (t : Target) (st : St),
      procBytes (max 1024 tb) ow (initSt d0 a0) input = Except.ok st ∧
      st.mode = Mode.cap t) :
    extract_chat_html true input d0 a0 ow cs tb =
      extract_chat_html true (input ++ [NEWLINE]) d0 a0 ow cs tb := by
  obtain ⟨t, st, hrun, hmode⟩ := h
  rw [extract_flat, extract_flat]
  exact (eofVsNewline (max 1024 tb) ow input (initSt d0 a0) st t hrun hmode).symm

theorem C5_eof_equals_newline_witness :
    (∃ (t : Target) (st : St),
      procBytes (max 1024 8192) false (initSt none none) c5Input = Except.ok st ∧
      st.mode = Mode.cap t) ∧
    extract_chat_html true c5Input none none false 65536 8192 =
      extract_chat_html true (c5Input ++ [NEWLINE]) none none false 65536 8192 :=
  ⟨⟨Target.json, _, rfl, rfl⟩,
   C5_eof_equals_newline c5Input none none false 65536 8192 ⟨Target.json, _, rfl, rfl⟩⟩

/-- C6: opening a destination fails with AlreadyExists exactly when the
destination exists and overwrite is false; the failure happens before
the file is opened, so the run aborts with both destination files
unchanged; with overwrite set, the capture proceeds and the destination
content is fully replaced by the new trimmed value. -/
theorem C6_overwrite_guard :
    (∀ (f : Option (List Nat)) (ow : Bool),
      openFails f ow = true ↔ (f.isSome = true ∧ ow = false)) ∧
    (∀ (hm : Nat) (st : St) (t : Target) (head rest : List Nat),
      st.mode = Mode.scanning → st.headbuf = [] →
      (∀ b ∈ head, ¬b = NEWLINE ∧ ¬b = EQUALS) →
      whichAssignment head = some t →
      foundOf st t = false → (fileOf st t).isSome = true →
      procBytes hm false st (head ++ EQUALS :: rest) =
        Except.error (Err.alreadyExists, { st with headbuf := head }) ∧
      ({ st with headbuf := head } : St).dataFile = st.dataFile ∧
      ({ st with headbuf := head } : St).assetsFile = st.assetsFile) ∧
    (∀ (hm : Nat) (st : St) (t : Target) (head v : List Nat), 2 ≤ hm →
      st.mode = Mode.scanning → st.headbuf = [] →
      (∀ b ∈ head, ¬b = NEWLINE ∧ ¬b = EQUALS) →
      whichAssignment head = some t →
      foundOf st t = false → (fileOf st t).isSome = true →
      (∀ b ∈ v, ¬b = NEWLINE) →
      (lstripST v).length - (trimTail (lstripST v)).length ≤ hm - 1 →
      procBytes hm true st (head ++ EQUALS :: (v ++ [NEWLINE])) =
        Except.ok (capDone st t (trimTail (lstripST v))) ∧
      fileOf (capDone st t (trimTail (lstripST v))) t = some (trimTail (lstripST v))) := by
  refine ⟨?_, ?_, ?_⟩
  · intro f ow
    simp [openFails]
  · intro hm st t head rest hmode hhb hhead hwa hnf hsome
    refine ⟨?_, rfl, rfl⟩
    exact openErrLine hm false st t head rest hmode hhb hhead hwa hnf
      (by simp [openFails, hsome])
  · intro hm st t head v hhm hmode hhb hhead hwa hnf hsome hv hfit
    refine ⟨?_, fileOf_capDone st t _⟩
    exact captureLine hm true hhm st t head v hmode hhb hhead hwa hnf
      (by simp [openFails]) hv hfit

theorem C6_overwrite_guard_witness :
    (openFails (some [120]) false = true ↔ ((some [120] : Option (List Nat)).isSome = true
      ∧ false = false)) ∧
    (procBytes 1024 false (initSt (some [120]) (some [121])) (c1Head ++ EQUALS :: [91, 50, 93]) =
      Except.error (Err.alreadyExists, { initSt (some [120]) (some [121]) with headbuf := c1Head }) ∧
     ({ initSt (some [120]) (some [121]) with headbuf := c1Head } : St).dataFile = some [120] ∧
     ({ initSt (some [120]) (some [121]) with headbuf := c1Head } : St).assetsFile = some [121]) ∧
    (procBytes 1024 true (initSt (some [120]) none) (c1Head ++ EQUALS :: ([91, 50, 93] ++ [NEWLINE])) =
      Except.ok (capDone (initSt (some [120]) none) Target.json
        (trimTail (lstripST [91, 50, 93]))) ∧
     fileOf (capDone (initSt (some [120]) none) Target.json (trimTail (lstripST [91, 50, 93])))
       Target.json = some (trimTail (lstripST [91, 50, 93]))) :=
  ⟨(C6_overwrite_guard.1 (some [120]) false),
   (C6_overwrite_guard.2.1 1024 (initSt (some [120]) (some [121])) Target.json c1Head [91, 50, 93]
     rfl rfl (by decide) (by decide) rfl rfl),
   (C6_overwrite_guard.2.2 1024 (initSt (some [120]) none) Target.json c1Head [91, 50, 93]
     (by decide) rfl rfl (by decide) (by decide) rfl rfl (by decide) (by decide))⟩

/-- C7: when the source path is not an existing regular file the run
fails with InputNotFound and both destination files are exactly the
untouched pre-existing ones; conversely a run on an existing regular
file never reports InputNotFound (its only error is AlreadyExists). -/
theorem C7_input_not_found :
    ∀ (input : List Nat) (d0 a0 : Option (List Nat)) (ow : Bool) (cs tb : Nat),
      extract_chat_html false input d0 a0 ow cs tb =
        Outcome.fail Err.inputNotFound d0 a0 ∧
      ∀ (d a : Option (List Nat)),
        ¬extract_chat_html true input d0 a0 ow cs tb =
          Outcome.fail Err.inputNotFound d a := by
  intro input d0 a0 ow cs tb
  refine ⟨rfl, ?_⟩
  intro d a hcontra
  rw [extract_flat] at hcontra
  cases hrun : procBytes (max 1024 tb) ow (initSt d0 a0) input with
  | ok st =>
    rw [hrun] at hcontra
    exact Outcome.noConfusion hcontra
  | error p =>
    obtain ⟨e, pst⟩ := p
    rw [hrun] at hcontra
    have he : e = Err.inputNotFound := by
      have := congrArg (fun o => match o with
        | Outcome.fail e2 _ _ => e2
        | Outcome.ok _ _ _ _ => Err.alreadyExists) hcontra
      simpa [outcomeOfRun] using this
    have hkind := procBytes_error_kind (max 1024 tb) ow input (initSt d0 a0) e pst hrun
    rw [he] at hkind
    exact Err.noConfusion hkind

/-- C8: extract behaves exactly as if called with the clamped
configuration max 64KiB chunk_size and max 1024 trailing_buffer, and no
configuration value causes a failure: whether the run fails is the same
for every pair of configuration values. -/
theorem C8_config_clamped :
    ∀ (f : Bool) (input : List Nat) (d0 a0 : Option (List Nat)) (ow : Bool)
      (cs tb cs2 tb2 : Nat),
      extract_chat_html f input d0 a0 ow cs tb =
        extract_chat_html f input d0 a0 ow (max 65536 cs) (max 1024 tb) ∧
      (extract_chat_html f input d0 a0 ow cs tb).isFail =
        (extract_chat_html f input d0 a0 ow cs2 tb2).isFail := by
  intro f input d0 a0 ow cs tb cs2 tb2
  constructor
  · cases f
    · rfl
    · rw [extract_flat, extract_flat]
      have h1 : max 1024 (max 1024 tb) = max 1024 tb := by omega
      rw [h1]
  · cases f
    · rfl
    · rw [extract_flat, extract_flat]
      rcases procBytes_sim (max 1024 tb) ow input (initSt d0 a0)
        with ⟨r, hr, hk⟩ | ⟨e, p, hr, hk⟩ <;>
        rcases procBytes_sim (max 1024 tb2) ow input (initSt d0 a0)
          with ⟨r2, hr2, hk2⟩ | ⟨e2, p2, hr2, hk2⟩
      · rw [hr, hr2]
        simp [outcomeOfRun, Outcome.isFail]
      · rw [hk] at hk2
        exact Except.noConfusion hk2
      · rw [hk] at hk2
        exact Except.noConfusion hk2
      · rw [hr, hr2]
        simp [outcomeOfRun, Outcome.isFail]

/-- C9: starting a capture with window capacity max 1024 trailing_buffer
and streaming any newline-free value bytes, the run succeeds, the bytes
already written followed by the window contents are exactly the
left-stripped value in arrival order (no byte lost or reordered), the
window length is the minimum of the streamed length and capacity minus
one (the oldest byte is evicted to the sink the moment the window would
fill), and the window never holds more than trailing_buffer bytes. -/
theorem C9_window_invariant
    (tb : Nat) (ow : Bool) (v : List Nat) (st : St) (t : Target)
    (htb : 1024 ≤ tb)
    (hmode : st.mode = Mode.cap t) (hsc : st.startedContent = false)
    (hhold : st.hold = []) (hco : st.curOut = [])
    (hv : ∀ b ∈ v, ¬b = NEWLINE) :
    ∃ st2, procBytes (max 1024 tb) ow st v = Except.ok st2 ∧
      st2.curOut ++ st2.hold = lstripST v ∧
      st2.hold.length = min (lstripST v).length (max 1024 tb - 1) ∧
      st2.hold.length ≤ tb ∧
      st2.curOut = (lstripST v).take ((lstripST v).length - st2.hold.length) := by
  have hhm : 2 ≤ max 1024 tb := by omega
  have hch := capPush_foldl_append (max 1024 tb) (lstripST v) [] []
  have hlen := capPush_foldl_length (max 1024 tb) hhm (lstripST v) [] [] (by simp)
  simp only [List.nil_append, List.length_nil, Nat.zero_add] at hch hlen
  refine ⟨_, capSegment (max 1024 tb) ow hhm v st t hmode hsc hhold hco hv,
    hch, hlen, ?_, ?_⟩
  · show (List.foldl (capPush (max 1024 tb)) ([], []) (lstripST v)).2.length ≤ tb
    omega
  · show (List.foldl (capPush (max 1024 tb)) ([], []) (lstripST v)).1 =
      (lstripST v).take ((lstripST v).length -
        (List.foldl (capPush (max 1024 tb)) ([], []) (lstripST v)).2.length)
    have h5 : (List.foldl (capPush (max 1024 tb)) ([], []) (lstripST v)).1.length =
        (lstripST v).length -
          (List.foldl (capPush (max 1024 tb)) ([], []) (lstripST v)).2.length := by
      have hlc := congrArg List.length hch
      simp only [List.length_append] at hlc
      omega
    calc (List.foldl (capPush (max 1024 tb)) ([], []) (lstripST v)).1
        = ((List.foldl (capPush (max 1024 tb)) ([], []) (lstripST v)).1 ++
            (List.foldl (capPush (max 1024 tb)) ([], []) (lstripST v)).2).take
            (List.foldl (capPush (max 1024 tb)) ([], []) (lstripST v)).1.length :=
          (List.take_left' rfl).symm
      _ = (lstripST v).take
            (List.foldl (capPush (max 1024 tb)) ([], []) (lstripST v)).1.length := by
          rw [hch]
      _ = (lstripST v).take ((lstripST v).length -
            (List.foldl (capPush (max 1024 tb)) ([], []) (lstripST v)).2.length) := by
          rw [h5]

theorem C9_window_invariant_witness :
    1024 ≤ 1024 ∧
    (∃ st2, procBytes (max 1024 1024) false
        { initSt none none with mode := Mode.cap Target.json } [32, 91, 49, 93] =
        Except.ok st2 ∧
      st2.curOut ++ st2.hold = lstripST [32, 91, 49, 93] ∧
      st2.hold.length = min (lstripST [32, 91, 49, 93]).length (max 1024 1024 - 1) ∧
      st2.hold.length ≤ 1024 ∧
      st2.curOut = (lstripST [32, 91, 49, 93]).take
        ((lstripST [32, 91, 49, 93]).length - st2.hold.length)) :=
  ⟨Nat.le_refl 1024,
   C9_window_invariant 1024 false [32, 91, 49, 93]
     { initSt none none with mode := Mode.cap Target.json } Target.json
     (Nat.le_refl 1024) rfl rfl rfl rfl (by decide)⟩

/-- C10: the extractor's observable outcome is independent of the read
chunk size: for any two chunk_size values and otherwise identical
arguments, extract_chat_html returns identical outcomes (same found
results, byte-identical output files). -/
theorem C10_chunk_size_irrelevant :
    ∀ (f : Bool) (input : List Nat) (d0 a0 : Option (List Nat)) (ow : Bool)
      (cs1 cs2 tb : Nat),
      extract_chat_html f input d0 a0 ow cs1 tb =
        extract_chat_html f input d0 a0 ow cs2 tb := by
  intro f input d0 a0 ow cs1 cs2 tb
  cases f
  · rfl
  · rw [extract_flat, extract_flat]

end ChatExport
